import Mathlib

/-!
Verification development for the Test Pilot pipeline frontend
(`Columbia-Hackathon-Test-Pilot-Frontend`).

The behavioral core lives in the `usePipeline` hook:
  * `handleEvent`    — the event reducer (per-step and meta events),
  * `navigateToStep` — manual navigation (clamping, sticky pinning),
  * `startPipeline`  — the synchronous run-start reset plus the
                       line-framed stream decoding loop,
  * `UrlInputStep.handleStart` — blank-identifier validation before start.

The embedding below translates those functions directly.  JavaScript
numbers that only ever hold small integers are modelled as `Int`;
`Set<number>` as `Finset Int`; `Record<number, StepData>` as
`Int → Option StepData`; an absent (`undefined`) optional field as
`none`.  React's sequential event processing makes each handler a pure
state transformer `PipelineState → PipelineState`.
-/

namespace TestPilot

/-- The `ToolRow` record from `usePipeline.ts`. -/
structure ToolRow where
  name : String
  method : String
  path : String
  safety : String
  execution : String
  rateLimit : Int
  deriving DecidableEq, Repr

/-- The `TestStepDetail` record from `usePipeline.ts`. -/
structure TestStepDetail where
  action : String
  success : Bool
  duration_ms : Int
  error : String
  deriving DecidableEq, Repr

/-- The `TestResultDetail` record from `usePipeline.ts`. -/
structure TestResultDetail where
  test_name : String
  description : String
  passed : Bool
  duration_ms : Int
  summary : String
  narrative : String
  analysis : String
  steps : List TestStepDetail
  deriving DecidableEq, Repr

/-- The `PipelineEvent` record.  The TypeScript type restricts `status` to
`"running" | "done" | "error"`, but the payload arrives from JSON and the
reducer branches on the string value with a fail-open default, so `status`
is kept as a `String` here.  `none` models an absent optional field. -/
structure PipelineEvent where
  step : String
  status : String
  items : List String
  sandbox : Option String := none
  toolRows : Option (List ToolRow) := none
  testResults : Option (List TestResultDetail) := none
  passed : Option Int := none
  total : Option Int := none
  deriving DecidableEq, Repr

/-- The constant `MAX_STEP = 11` — last valid index in `PIPELINE_STEPS`. -/
def MAX_STEP : Int := 11

/-- The `STEP_INDEX_MAP` table — maps backend step IDs to frontend step indices. -/
def STEP_INDEX_MAP (id : String) : Option Int :=
  if id = "clone" then some 1
  else if id = "deploy-sandbox" then some 2
  else if id = "extract" then some 3
  else if id = "ingest" then some 4
  else if id = "discover" then some 5
  else if id = "schema" then some 6
  else if id = "policy" then some 7
  else if id = "generate" then some 8
  else if id = "mcp-test" then some 9
  else if id = "deploy" then some 10
  else if id = "user-test" then some 11
  else none

/-- The `StepData` record (derived per-ordinal state). -/
structure StepData where
  items : List String
  status : String
  toolRows : Option (List ToolRow) := none
  testResults : Option (List TestResultDetail) := none
  passed : Option Int := none
  total : Option Int := none
  sandbox : Option String := none
  deriving DecidableEq, Repr

/-- The `StepData` record built inside `handleEvent` from an incoming
event: `items` and the status mapping
`done ↦ done, error ↦ error, otherwise ↦ running`, then each optional
field copied under the source's guard.  `toolRows`/`testResults` are
copied when present (a JS array is always truthy), `passed`/`total`
when not `undefined`, and `sandbox` under string truthiness (so an empty
string is not copied). -/
def mkStepData (e : PipelineEvent) : StepData :=
  { items := e.items
    status := if e.status = "done" then "done"
              else if e.status = "error" then "error"
              else "running"
    toolRows := e.toolRows
    testResults := e.testResults
    passed := e.passed
    total := e.total
    sandbox := match e.sandbox with
               | some s => if s = "" then none else some s
               | none => none }

/-- The mutable state owned by `usePipeline`: the run-progress fields and
the per-ordinal step-data table.  `userNavigated` embeds
`userNavigatedRef.current`. -/
structure PipelineState where
  isRunning : Bool
  activeStep : Int
  viewedStep : Int
  userNavigated : Bool
  completedSteps : Finset Int
  stepData : Int → Option StepData
  error : Option String

/-- The spec's `following` flag is the negation of the source's
`userNavigatedRef.current`. -/
def following (s : PipelineState) : Bool := !s.userNavigated

/-- The synchronous state reset performed at the top of `startPipeline`
before any network activity: clear error/completed/step data, re-arm
following, set active and viewed step to 1, and mark ordinal 0
(url-input) completed. -/
def runStartState : PipelineState :=
  { isRunning := true
    activeStep := 1
    viewedStep := 1
    userNavigated := false
    completedSteps := {0}
    stepData := fun _ => none
    error := none }

/-- The reducer `handleEvent`.  A meta-event (`step == "pipeline"`)
with status `error` sets the run-level error to the items joined with
`"; "` and returns; an unmapped step id is a no-op; otherwise the
per-ordinal record is stored and the active/viewed ordinals advance
according to the event status. -/
def handleEvent (s : PipelineState) (e : PipelineEvent) : PipelineState :=
  if e.step = "pipeline" then
    if e.status = "error" then
      { s with error := some (String.intercalate "; " e.items) }
    else s
  else
    match STEP_INDEX_MAP e.step with
    | none => s
    | some stepIdx =>
      let s1 := { s with stepData := fun k =>
                    if k = stepIdx then some (mkStepData e) else s.stepData k }
      if e.status = "running" then
        let clamped := min stepIdx MAX_STEP
        { s1 with activeStep := clamped
                  viewedStep := if s1.userNavigated then s1.viewedStep else clamped }
      else if e.status = "done" then
        let s2 := { s1 with completedSteps := insert stepIdx s1.completedSteps }
        let next := min (stepIdx + 1) MAX_STEP
        { s2 with activeStep := max s2.activeStep next
                  viewedStep := if s2.userNavigated then s2.viewedStep
                                else max s2.viewedStep next }
      else s1

/-- The handler `navigateToStep`: clamp the requested index into `[0, MAX_STEP]`,
record that the user navigated manually, and set the viewed step. -/
def navigateToStep (s : PipelineState) (index : Int) : PipelineState :=
  let clamped := min (max index 0) MAX_STEP
  { s with userNavigated := true, viewedStep := clamped }

/-- The handler `UrlInputStep.handleStart`: keep only identifiers for
which `u.trim()` is truthy — that is, identifiers containing at least
one non-whitespace character — and invoke `startPipeline` only when at
least one remains.  `some valid` models the call `onStart(valid)`;
`none` models no call at all (no network request, no state change). -/
def handleStart (urls : List String) : Option (List String) :=
  let valid := urls.filter (fun u => !u.data.all Char.isWhitespace)
  if valid.length ≠ 0 then some valid else none

/-!
Stream decoder.  The read loop in `startPipeline` accumulates chunks in a
string buffer, splits the buffer on `"\n"`, keeps the part after the last
newline as the new buffer, and processes each complete line: a line not
starting with `"data: "` is skipped, otherwise its payload (the line with
the six marker characters removed) is JSON-parsed; a parse failure is
swallowed by the `try`/`catch`.  The text is modelled as `List Char` and
`JSON.parse` plus the shape check as an abstract
`parse : List Char → Option PipelineEvent` parameter whose `none` case is
a parse failure: every theorem below holds for every such `parse`.
-/

/-- The check `line.startsWith("data: ")` followed by `line.slice(6)`: return the
payload after the marker, or `none` when the marker is absent. -/
def stripMarker : List Char → Option (List Char)
  | 'd' :: 'a' :: 't' :: 'a' :: ':' :: ' ' :: rest => some rest
  | _ => none

/-- The body of the `for (const line of lines)` loop for one line. -/
def processLine (parse : List Char → Option PipelineEvent)
    (s : PipelineState) (line : List Char) : PipelineState :=
  match stripMarker line with
  | none => s
  | some payload =>
    match parse payload with
    | none => s
    | some e => handleEvent s e

/-- Processing a list of complete lines in order. -/
def processLines (parse : List Char → Option PipelineEvent)
    (s : PipelineState) (lines : List (List Char)) : PipelineState :=
  lines.foldl (processLine parse) s

/-- The split `buffer.split("\n")` with JavaScript semantics: splitting the empty
string yields `[""]`, and a trailing newline yields a final empty
segment. -/
def splitOnNl : List Char → List (List Char)
  | [] => [[]]
  | c :: cs =>
    if c = '\n' then [] :: splitOnNl cs
    else
      match splitOnNl cs with
      | [] => [[c]]
      | l :: ls => (c :: l) :: ls

/-- One iteration of the read loop: append the chunk to the buffer, split
on newlines, keep the last segment as the new buffer (`lines.pop()`),
and process the complete lines. -/
def processChunk (parse : List Char → Option PipelineEvent)
    (sb : PipelineState × List Char) (chunk : List Char) :
    PipelineState × List Char :=
  let parts := splitOnNl (sb.2 ++ chunk)
  (processLines parse sb.1 parts.dropLast, parts.getLastD [])

/-- The whole read loop: start with an empty buffer, fold the chunks, and
when the stream signals end-of-data return the state — the final buffer
contents are discarded unparsed. -/
def runStream (parse : List Char → Option PipelineEvent)
    (s : PipelineState) (chunks : List (List Char)) : PipelineState :=
  (chunks.foldl (processChunk parse) (s, [])).1

/-- An externally triggered operation on the run state: an event delivered
by the stream, or a manual navigation click. -/
inductive PipelineOp where
  | ev (e : PipelineEvent)
  | nav (x : Int)

/-- Apply one operation to the state. -/
def applyOp (s : PipelineState) : PipelineOp → PipelineState
  | .ev e => handleEvent s e
  | .nav x => navigateToStep s x

/-- Prepend a segment to the head of a segment list, used to describe how
splitting distributes over appending character streams. -/
def glue (x : List Char) : List (List Char) → List (List Char)
  | [] => [x]
  | y :: ys => (x ++ y) :: ys

/-!
Concrete sample data used to exercise the definitions at specific inputs.
-/

/-- A sample policy-table row. -/
def sampleToolRow : ToolRow :=
  { name := "t", method := "GET", path := "/x", safety := "Read",
    execution := "Auto Execute", rateLimit := 60 }

/-- A `running` event for the `discover` step (ordinal 5). -/
def discoverRunningEv : PipelineEvent :=
  { step := "discover", status := "running", items := [] }

/-- A `running` event for the `extract` step (ordinal 3). -/
def extractRunningEv : PipelineEvent :=
  { step := "extract", status := "running", items := [] }

/-- A `running` event for the `schema` step (ordinal 6). -/
def schemaRunningEv : PipelineEvent :=
  { step := "schema", status := "running", items := [] }

/-- A `running` event for the `ingest` step (ordinal 4). -/
def ingestRunningEv : PipelineEvent :=
  { step := "ingest", status := "running", items := [] }

/-- A `done` event for the `clone` step (ordinal 1). -/
def cloneDoneEv : PipelineEvent :=
  { step := "clone", status := "done", items := ["cloned u1"] }

/-- A `running` event for the `policy` step (ordinal 7) carrying a tool
row. -/
def policyRunningEv : PipelineEvent :=
  { step := "policy", status := "running", items := ["a"],
    toolRows := some [sampleToolRow] }

/-- A `done` event for the `policy` step (ordinal 7) with no optional
fields. -/
def policyDoneEv : PipelineEvent :=
  { step := "policy", status := "done", items := ["b"] }

/-- A meta-event carrying a run-level error. -/
def metaErrorEv : PipelineEvent :=
  { step := "pipeline", status := "error", items := ["disk full"] }

/-!
Basic facts about the step-index table and a case analysis of the
reducer: the six lemmas below decompose `handleEvent` into its branches
and are the workhorses for everything that follows.
-/

set_option maxHeartbeats 1600000 in
/-- Every mapped backend step id resolves to an ordinal in `[1, 11]`. -/
theorem STEP_INDEX_MAP_range (id : String) (n : Int)
    (h : STEP_INDEX_MAP id = some n) : 1 ≤ n ∧ n ≤ MAX_STEP := by
  unfold STEP_INDEX_MAP at h
  repeat' split at h
  all_goals first
  | (injection h with h2; subst h2; decide)
  | injection h

/-- The meta id `"pipeline"` is not in the step-index table. -/
theorem STEP_INDEX_MAP_pipeline : STEP_INDEX_MAP "pipeline" = none := by decide

/-- A mapped event is not a meta-event. -/
theorem step_ne_pipeline_of_mapped (e : PipelineEvent) (n : Int)
    (hm : STEP_INDEX_MAP e.step = some n) : e.step ≠ "pipeline" := by
  intro h
  rw [h, STEP_INDEX_MAP_pipeline] at hm
  cases hm

/-- Reducer branch: meta-event with status `error` sets only the error
field. -/
theorem handleEvent_meta_error (s : PipelineState) (e : PipelineEvent)
    (hstep : e.step = "pipeline") (hst : e.status = "error") :
    handleEvent s e = { s with error := some (String.intercalate "; " e.items) } := by
  unfold handleEvent
  rw [if_pos hstep, if_pos hst]

/-- Reducer branch: meta-event with any status other than `error` is a
no-op. -/
theorem handleEvent_meta_other (s : PipelineState) (e : PipelineEvent)
    (hstep : e.step = "pipeline") (hst : e.status ≠ "error") :
    handleEvent s e = s := by
  unfold handleEvent
  rw [if_pos hstep, if_neg hst]

/-- Reducer branch: an event whose step id is unmapped is a no-op. -/
theorem handleEvent_unmapped (s : PipelineState) (e : PipelineEvent)
    (hstep : e.step ≠ "pipeline") (hm : STEP_INDEX_MAP e.step = none) :
    handleEvent s e = s := by
  unfold handleEvent
  rw [if_neg hstep, hm]

/-- Reducer branch: a mapped `running` event stores the step record and
sets the active step directly to `min n MAX_STEP` (no `max` with the
previous value), mirroring it into the viewed step unless the user has
navigated. -/
theorem handleEvent_running (s : PipelineState) (e : PipelineEvent) (n : Int)
    (hm : STEP_INDEX_MAP e.step = some n) (hst : e.status = "running") :
    handleEvent s e =
      { s with stepData := fun k => if k = n then some (mkStepData e) else s.stepData k
               activeStep := min n MAX_STEP
               viewedStep := if s.userNavigated then s.viewedStep else min n MAX_STEP } := by
  have hp : e.step ≠ "pipeline" := step_ne_pipeline_of_mapped e n hm
  unfold handleEvent
  rw [if_neg hp, hm]
  simp only [hst, reduceIte]

/-- Reducer branch: a mapped `done` event stores the step record, inserts
the ordinal into the completed set, and advances the active step to
`max activeStep (min (n+1) MAX_STEP)`, mirroring into the viewed step
unless the user has navigated. -/
theorem handleEvent_done (s : PipelineState) (e : PipelineEvent) (n : Int)
    (hm : STEP_INDEX_MAP e.step = some n) (hst : e.status = "done") :
    handleEvent s e =
      { s with stepData := fun k => if k = n then some (mkStepData e) else s.stepData k
               completedSteps := insert n s.completedSteps
               activeStep := max s.activeStep (min (n + 1) MAX_STEP)
               viewedStep := if s.userNavigated then s.viewedStep
                             else max s.viewedStep (min (n + 1) MAX_STEP) } := by
  have hp : e.step ≠ "pipeline" := step_ne_pipeline_of_mapped e n hm
  unfold handleEvent
  rw [if_neg hp, hm]
  simp only [hst, String.reduceEq, reduceIte]

/-- Reducer branch: a mapped event with a status other than `running` and
`done` only stores the step record. -/
theorem handleEvent_other (s : PipelineState) (e : PipelineEvent) (n : Int)
    (hm : STEP_INDEX_MAP e.step = some n) (hr : e.status ≠ "running")
    (hd : e.status ≠ "done") :
    handleEvent s e =
      { s with stepData := fun k => if k = n then some (mkStepData e) else s.stepData k } := by
  have hp : e.step ≠ "pipeline" := step_ne_pipeline_of_mapped e n hm
  unfold handleEvent
  rw [if_neg hp, hm]
  simp only [if_neg hr, if_neg hd]

/-!
Preservation facts about single reducer steps, each proved by the same
five-way case split over the reducer branches.
-/

/-- The reducer never touches the manual-navigation flag. -/
theorem handleEvent_userNavigated (s : PipelineState) (e : PipelineEvent) :
    (handleEvent s e).userNavigated = s.userNavigated := by
  by_cases hp : e.step = "pipeline"
  · by_cases hs : e.status = "error"
    · rw [handleEvent_meta_error s e hp hs]
    · rw [handleEvent_meta_other s e hp hs]
  · cases hm : STEP_INDEX_MAP e.step with
    | none => rw [handleEvent_unmapped s e hp hm]
    | some n =>
      by_cases hr : e.status = "running"
      · rw [handleEvent_running s e n hm hr]
      · by_cases hd : e.status = "done"
        · rw [handleEvent_done s e n hm hd]
        · rw [handleEvent_other s e n hm hr hd]

/-- The reducer never removes an ordinal from the completed set. -/
theorem handleEvent_completed_subset (s : PipelineState) (e : PipelineEvent) :
    s.completedSteps ⊆ (handleEvent s e).completedSteps := by
  by_cases hp : e.step = "pipeline"
  · by_cases hs : e.status = "error"
    · rw [handleEvent_meta_error s e hp hs]
    · rw [handleEvent_meta_other s e hp hs]
  · cases hm : STEP_INDEX_MAP e.step with
    | none => rw [handleEvent_unmapped s e hp hm]
    | some n =>
      by_cases hr : e.status = "running"
      · rw [handleEvent_running s e n hm hr]
      · by_cases hd : e.status = "done"
        · rw [handleEvent_done s e n hm hd]
          exact Finset.subset_insert _ _
        · rw [handleEvent_other s e n hm hr hd]

/-- Once the user has navigated, the reducer leaves the viewed step
alone. -/
theorem handleEvent_viewed_of_nav (s : PipelineState) (e : PipelineEvent)
    (h : s.userNavigated = true) :
    (handleEvent s e).viewedStep = s.viewedStep := by
  by_cases hp : e.step = "pipeline"
  · by_cases hs : e.status = "error"
    · rw [handleEvent_meta_error s e hp hs]
    · rw [handleEvent_meta_other s e hp hs]
  · cases hm : STEP_INDEX_MAP e.step with
    | none => rw [handleEvent_unmapped s e hp hm]
    | some n =>
      by_cases hr : e.status = "running"
      · rw [handleEvent_running s e n hm hr]
        simp [h]
      · by_cases hd : e.status = "done"
        · rw [handleEvent_done s e n hm hd]
          simp [h]
        · rw [handleEvent_other s e n hm hr hd]

/-- While the user has not navigated, the reducer keeps the viewed step
equal to the active step. -/
theorem handleEvent_follow (s : PipelineState) (e : PipelineEvent)
    (h1 : s.userNavigated = false) (h2 : s.viewedStep = s.activeStep) :
    (handleEvent s e).viewedStep = (handleEvent s e).activeStep := by
  by_cases hp : e.step = "pipeline"
  · by_cases hs : e.status = "error"
    · rw [handleEvent_meta_error s e hp hs]
      exact h2
    · rw [handleEvent_meta_other s e hp hs]
      exact h2
  · cases hm : STEP_INDEX_MAP e.step with
    | none =>
      rw [handleEvent_unmapped s e hp hm]
      exact h2
    | some n =>
      by_cases hr : e.status = "running"
      · rw [handleEvent_running s e n hm hr]
        simp [h1]
      · by_cases hd : e.status = "done"
        · rw [handleEvent_done s e n hm hd]
          simp [h1, h2]
        · rw [handleEvent_other s e n hm hr hd]
          exact h2

/-- Either the active step does not decrease, or the event is a mapped
`running` event and the active step is set directly to its clamped
ordinal. -/
theorem handleEvent_active_cases (s : PipelineState) (e : PipelineEvent) :
    s.activeStep ≤ (handleEvent s e).activeStep ∨
      ∃ n, STEP_INDEX_MAP e.step = some n ∧ e.status = "running" ∧
        (handleEvent s e).activeStep = min n MAX_STEP := by
  by_cases hp : e.step = "pipeline"
  · by_cases hs : e.status = "error"
    · rw [handleEvent_meta_error s e hp hs]
      exact Or.inl le_rfl
    · rw [handleEvent_meta_other s e hp hs]
      exact Or.inl le_rfl
  · cases hm : STEP_INDEX_MAP e.step with
    | none =>
      rw [handleEvent_unmapped s e hp hm]
      exact Or.inl le_rfl
    | some n =>
      by_cases hr : e.status = "running"
      · rw [handleEvent_running s e n hm hr]
        exact Or.inr ⟨n, rfl, hr, rfl⟩
      · by_cases hd : e.status = "done"
        · rw [handleEvent_done s e n hm hd]
          exact Or.inl (le_max_left _ _)
        · rw [handleEvent_other s e n hm hr hd]
          exact Or.inl le_rfl

/-- On every branch the post-state step-data table is either unchanged or
a single-ordinal update at a mapped ordinal. -/
theorem handleEvent_stepData_cases (s : PipelineState) (e : PipelineEvent) :
    (handleEvent s e).stepData = s.stepData ∨
      ∃ n, STEP_INDEX_MAP e.step = some n ∧
        (handleEvent s e).stepData =
          fun k => if k = n then some (mkStepData e) else s.stepData k := by
  by_cases hp : e.step = "pipeline"
  · by_cases hs : e.status = "error"
    · rw [handleEvent_meta_error s e hp hs]
      exact Or.inl rfl
    · rw [handleEvent_meta_other s e hp hs]
      exact Or.inl rfl
  · cases hm : STEP_INDEX_MAP e.step with
    | none =>
      rw [handleEvent_unmapped s e hp hm]
      exact Or.inl rfl
    | some n =>
      by_cases hr : e.status = "running"
      · rw [handleEvent_running s e n hm hr]
        exact Or.inr ⟨n, rfl, rfl⟩
      · by_cases hd : e.status = "done"
        · rw [handleEvent_done s e n hm hd]
          exact Or.inr ⟨n, rfl, rfl⟩
        · rw [handleEvent_other s e n hm hr hd]
          exact Or.inr ⟨n, rfl, rfl⟩

/-- On every branch the post-state completed set is either unchanged or
gains exactly one mapped ordinal. -/
theorem handleEvent_completed_cases (s : PipelineState) (e : PipelineEvent) :
    (handleEvent s e).completedSteps = s.completedSteps ∨
      ∃ n, STEP_INDEX_MAP e.step = some n ∧
        (handleEvent s e).completedSteps = insert n s.completedSteps := by
  by_cases hp : e.step = "pipeline"
  · by_cases hs : e.status = "error"
    · rw [handleEvent_meta_error s e hp hs]
      exact Or.inl rfl
    · rw [handleEvent_meta_other s e hp hs]
      exact Or.inl rfl
  · cases hm : STEP_INDEX_MAP e.step with
    | none =>
      rw [handleEvent_unmapped s e hp hm]
      exact Or.inl rfl
    | some n =>
      by_cases hr : e.status = "running"
      · rw [handleEvent_running s e n hm hr]
        exact Or.inl rfl
      · by_cases hd : e.status = "done"
        · rw [handleEvent_done s e n hm hd]
          exact Or.inr ⟨n, rfl, rfl⟩
        · rw [handleEvent_other s e n hm hr hd]
          exact Or.inl rfl

/-!
Sequence-level consequences, by induction on the event list.
-/

/-- Across any event sequence the completed set only grows. -/
theorem foldl_completed_subset (es : List PipelineEvent) (s : PipelineState) :
    s.completedSteps ⊆ (es.foldl handleEvent s).completedSteps := by
  induction es generalizing s with
  | nil => exact Finset.Subset.refl _
  | cons e es ih =>
    exact (handleEvent_completed_subset s e).trans (ih (handleEvent s e))

/-- Across any event sequence, while the user has not navigated the
viewed step keeps tracking the active step and the flag stays unset. -/
theorem foldl_follow (es : List PipelineEvent) (s : PipelineState)
    (h1 : s.userNavigated = false) (h2 : s.viewedStep = s.activeStep) :
    (es.foldl handleEvent s).userNavigated = false ∧
      (es.foldl handleEvent s).viewedStep = (es.foldl handleEvent s).activeStep := by
  induction es generalizing s with
  | nil => exact ⟨h1, h2⟩
  | cons e es ih =>
    exact ih (handleEvent s e) ((handleEvent_userNavigated s e).trans h1)
      (handleEvent_follow s e h1 h2)

/-- Across any event sequence, once the user has navigated the viewed
step is frozen and the flag stays set. -/
theorem foldl_pinned (es : List PipelineEvent) (s : PipelineState)
    (h : s.userNavigated = true) :
    (es.foldl handleEvent s).userNavigated = true ∧
      (es.foldl handleEvent s).viewedStep = s.viewedStep := by
  induction es generalizing s with
  | nil => exact ⟨h, rfl⟩
  | cons e es ih =>
    have hn : (handleEvent s e).userNavigated = true :=
      (handleEvent_userNavigated s e).trans h
    obtain ⟨a, b⟩ := ih (handleEvent s e) hn
    exact ⟨a, b.trans (handleEvent_viewed_of_nav s e h)⟩

/-!
Ordinal-bound invariants used for the implicit range claim.
-/

/-- One reducer step preserves the bound on completed ordinals. -/
theorem handleEvent_completed_bound (s : PipelineState) (e : PipelineEvent)
    (h : ∀ k ∈ s.completedSteps, 0 ≤ k ∧ k ≤ MAX_STEP) :
    ∀ k ∈ (handleEvent s e).completedSteps, 0 ≤ k ∧ k ≤ MAX_STEP := by
  rcases handleEvent_completed_cases s e with hc | ⟨n, hm, hc⟩
  · rw [hc]
    exact h
  · rw [hc]
    intro k hk
    rcases Finset.mem_insert.mp hk with rfl | hk
    · obtain ⟨h1, h2⟩ := STEP_INDEX_MAP_range e.step k hm
      exact ⟨le_trans (by norm_num) h1, h2⟩
    · exact h k hk

/-- One reducer step preserves the bound on populated step-data keys. -/
theorem handleEvent_stepData_bound (s : PipelineState) (e : PipelineEvent)
    (h : ∀ k, s.stepData k ≠ none → 1 ≤ k ∧ k ≤ MAX_STEP) :
    ∀ k, (handleEvent s e).stepData k ≠ none → 1 ≤ k ∧ k ≤ MAX_STEP := by
  rcases handleEvent_stepData_cases s e with hc | ⟨n, hm, hc⟩
  · rw [hc]
    exact h
  · rw [hc]
    intro k hk
    by_cases hkn : k = n
    · subst hkn
      exact STEP_INDEX_MAP_range e.step k hm
    · simp only [if_neg hkn] at hk
      exact h k hk

/-- Navigation touches neither the completed set nor the step data. -/
theorem navigateToStep_frame (s : PipelineState) (x : Int) :
    (navigateToStep s x).completedSteps = s.completedSteps ∧
      (navigateToStep s x).stepData = s.stepData := ⟨rfl, rfl⟩

/-- Both invariants hold after any sequence of events and navigations
starting from a state that satisfies them. -/
theorem foldl_ops_bound (ops : List PipelineOp) (s : PipelineState)
    (hc : ∀ k ∈ s.completedSteps, 0 ≤ k ∧ k ≤ MAX_STEP)
    (hd : ∀ k, s.stepData k ≠ none → 1 ≤ k ∧ k ≤ MAX_STEP) :
    (∀ k ∈ (ops.foldl applyOp s).completedSteps, 0 ≤ k ∧ k ≤ MAX_STEP) ∧
      (∀ k, (ops.foldl applyOp s).stepData k ≠ none → 1 ≤ k ∧ k ≤ MAX_STEP) := by
  induction ops generalizing s with
  | nil => exact ⟨hc, hd⟩
  | cons op ops ih =>
    cases op with
    | ev e =>
      exact ih (handleEvent s e) (handleEvent_completed_bound s e hc)
        (handleEvent_stepData_bound s e hd)
    | nav x => exact ih (navigateToStep s x) hc hd

/-!
Line-framing facts for the stream decoder.
-/

/-- The default value of `getLastD` is irrelevant on a non-empty list. -/
theorem getLastD_irrel {α : Type _} (l : List α) (d d' : α) (h : l ≠ []) :
    l.getLastD d = l.getLastD d' := by
  cases l with
  | nil => exact absurd rfl h
  | cons a as => rfl

/-- The last element of an append with non-empty right part. -/
theorem getLastD_append {α : Type _} (l1 l2 : List α) (h : l2 ≠ []) :
    ∀ d, (l1 ++ l2).getLastD d = l2.getLastD d := by
  induction l1 with
  | nil => intro d; rfl
  | cons a as ih =>
    intro d
    rw [List.cons_append, List.getLastD_cons, ih a, getLastD_irrel l2 a d h]

/-- Gluing never produces the empty segment list. -/
theorem glue_ne_nil (x : List Char) (ys : List (List Char)) : glue x ys ≠ [] := by
  cases ys <;> simp [glue]

/-- Splitting never produces the empty segment list. -/
theorem splitOnNl_ne_nil (l : List Char) : splitOnNl l ≠ [] := by
  cases l with
  | nil => simp [splitOnNl]
  | cons c cs =>
    unfold splitOnNl
    by_cases h : c = '\n'
    · simp [h]
    · rw [if_neg h]
      cases splitOnNl cs <;> simp

/-- A newline-free text splits into the single segment holding it. -/
theorem splitOnNl_no_nl (l : List Char) (h : '\n' ∉ l) : splitOnNl l = [l] := by
  induction l with
  | nil => rfl
  | cons c cs ih =>
    have hc : ¬c = '\n' := fun hh => h (hh ▸ List.mem_cons_self c cs)
    have hcs : '\n' ∉ cs := fun hh => h (List.mem_cons_of_mem c hh)
    unfold splitOnNl
    rw [if_neg hc, ih hcs]

/-- The final segment of a split is newline-free: it is exactly the text
after the last newline. -/
theorem splitOnNl_getLastD_no_nl (l : List Char) :
    '\n' ∉ (splitOnNl l).getLastD [] := by
  induction l with
  | nil => simp [splitOnNl]
  | cons c cs ih =>
    unfold splitOnNl
    by_cases h : c = '\n'
    · rw [if_pos h, List.getLastD_cons,
        getLastD_irrel (splitOnNl cs) [] [] (splitOnNl_ne_nil cs)]
      exact ih
    · rw [if_neg h]
      cases hs : splitOnNl cs with
      | nil => exact absurd hs (splitOnNl_ne_nil cs)
      | cons s0 rest =>
        cases rest with
        | nil =>
          rw [hs] at ih
          simp only [List.getLastD_cons, List.getLastD_nil] at ih ⊢
          intro hmem
          rcases List.mem_cons.mp hmem with hc | hc
          · exact h hc.symm
          · exact ih hc
        | cons r rs =>
          rw [hs] at ih
          rw [List.getLastD_cons, List.getLastD_cons] at ih ⊢
          exact ih

/-- Splitting a newline-free prefix glued onto further text merges the
prefix into the first segment of the rest. -/
theorem splitOnNl_noNl_append (x v : List Char) (hx : '\n' ∉ x) :
    splitOnNl (x ++ v) = glue x (splitOnNl v) := by
  induction x with
  | nil =>
    cases hv : splitOnNl v with
    | nil => exact absurd hv (splitOnNl_ne_nil v)
    | cons t ts => simp [glue, hv]
  | cons c x ih =>
    have hc : ¬c = '\n' := fun hh => hx (hh ▸ List.mem_cons_self c x)
    have hx' : '\n' ∉ x := fun hh => hx (List.mem_cons_of_mem c hh)
    cases hv : splitOnNl v with
    | nil => exact absurd hv (splitOnNl_ne_nil v)
    | cons t ts =>
      rw [List.cons_append]
      simp [splitOnNl, if_neg hc, ih hx', hv, glue]

/-- Decomposition of a split over an append: the left part contributes
its initial segments unchanged, and its final segment merges with the
first segment of the right part. -/
theorem splitOnNl_append (a b : List Char) :
    ∃ init last, splitOnNl a = init ++ [last] ∧
      splitOnNl (a ++ b) = init ++ glue last (splitOnNl b) := by
  induction a with
  | nil =>
    refine ⟨[], [], rfl, ?_⟩
    cases hv : splitOnNl b with
    | nil => exact absurd hv (splitOnNl_ne_nil b)
    | cons t ts => simp [glue, hv]
  | cons c cs ih =>
    obtain ⟨init, last, h1, h2⟩ := ih
    by_cases hc : c = '\n'
    · subst hc
      exact ⟨[] :: init, last, by simp [splitOnNl, h1],
        by rw [List.cons_append]; simp [splitOnNl, h2]⟩
    · cases init with
      | nil =>
        simp only [List.nil_append] at h1 h2
        refine ⟨[], c :: last, by simp [splitOnNl, if_neg hc, h1], ?_⟩
        cases hv : splitOnNl b with
        | nil => exact absurd hv (splitOnNl_ne_nil b)
        | cons t ts =>
          rw [hv] at h2
          rw [List.cons_append]
          simp [splitOnNl, if_neg hc, h2, glue]
      | cons i0 init' =>
        refine ⟨(c :: i0) :: init', last, by simp [splitOnNl, if_neg hc, h1], ?_⟩
        rw [List.cons_append]
        simp [splitOnNl, if_neg hc, h2]

/-- Processing lines distributes over list append. -/
theorem processLines_append (parse : List Char → Option PipelineEvent)
    (s : PipelineState) (l1 l2 : List (List Char)) :
    processLines parse s (l1 ++ l2) =
      processLines parse (processLines parse s l1) l2 := by
  unfold processLines
  exact List.foldl_append _ _ _ _

/-- The read loop computes, for any newline-free carry-over buffer, the
state obtained by processing all complete lines of the buffered input and
the text after its last newline as the new buffer. -/
theorem foldl_processChunk (parse : List Char → Option PipelineEvent)
    (chunks : List (List Char)) :
    ∀ (s : PipelineState) (buf : List Char), '\n' ∉ buf →
      chunks.foldl (processChunk parse) (s, buf) =
        (processLines parse s ((splitOnNl (buf ++ chunks.flatten)).dropLast),
         (splitOnNl (buf ++ chunks.flatten)).getLastD []) := by
  induction chunks with
  | nil =>
    intro s buf hbuf
    rw [List.foldl_nil]
    simp only [List.flatten_nil, List.append_nil]
    rw [splitOnNl_no_nl buf hbuf]
    simp [processLines]
  | cons c cs ih =>
    intro s buf hbuf
    rw [List.foldl_cons]
    have hstep : processChunk parse (s, buf) c =
        (processLines parse s ((splitOnNl (buf ++ c)).dropLast),
         (splitOnNl (buf ++ c)).getLastD []) := rfl
    rw [hstep]
    have hlast : '\n' ∉ (splitOnNl (buf ++ c)).getLastD [] :=
      splitOnNl_getLastD_no_nl _
    rw [ih _ _ hlast]
    obtain ⟨init, last, h1, h2⟩ := splitOnNl_append (buf ++ c) cs.flatten
    have hjoin : buf ++ (c :: cs).flatten = (buf ++ c) ++ cs.flatten := by
      simp [List.flatten_cons]
    have hPd : (splitOnNl (buf ++ c)).dropLast = init := by
      rw [h1]
      exact List.dropLast_concat
    have hPl : (splitOnNl (buf ++ c)).getLastD [] = last := by
      rw [h1]
      exact List.getLastD_concat _ _ _
    have hlast' : '\n' ∉ last := hPl ▸ hlast
    have h2' : splitOnNl ((buf ++ c) ++ cs.flatten) =
        init ++ splitOnNl (last ++ cs.flatten) := by
      rw [h2, splitOnNl_noNl_append last cs.flatten hlast']
    rw [hjoin, h2', hPd, hPl,
      List.dropLast_append_of_ne_nil _ (splitOnNl_ne_nil _),
      getLastD_append init _ (splitOnNl_ne_nil _),
      processLines_append]

/-- Decoding the chunked stream equals processing exactly the
newline-terminated lines of the concatenated stream text: the trailing
text after the last newline is discarded unparsed. -/
theorem runStream_eq (parse : List Char → Option PipelineEvent)
    (s : PipelineState) (chunks : List (List Char)) :
    runStream parse s chunks =
      processLines parse s ((splitOnNl chunks.flatten).dropLast) := by
  unfold runStream
  rw [foldl_processChunk parse chunks s [] (by simp)]
  simp

/-!
Claim theorems.
-/

/-- C1, counterexample: within one run (starting from the run-start
state), the valid event sequence `discover running` then `extract
running` makes `activeStep` decrease from 5 to 3, refuting that
`activeOrdinal` is non-decreasing for every sequence of valid events. -/
theorem c1_counterexample :
    (handleEvent (handleEvent runStartState discoverRunningEv)
        extractRunningEv).activeStep
      < (handleEvent runStartState discoverRunningEv).activeStep := by
  decide

/-- C1, amended: across every event sequence the completed set only
grows (no event removes an ordinal), and a single event never decreases
`activeStep` except that a mapped `running` event sets `activeStep`
directly to its clamped ordinal `min n MAX_STEP`, which may be lower
than the previous value. -/
theorem c1_amended :
    (∀ (s : PipelineState) (es : List PipelineEvent),
        s.completedSteps ⊆ (es.foldl handleEvent s).completedSteps) ∧
      ∀ (s : PipelineState) (e : PipelineEvent),
        s.activeStep ≤ (handleEvent s e).activeStep ∨
          ∃ n, STEP_INDEX_MAP e.step = some n ∧ e.status = "running" ∧
            (handleEvent s e).activeStep = min n MAX_STEP :=
  ⟨fun s es => foldl_completed_subset es s,
   fun s e => handleEvent_active_cases s e⟩

/-- C2, counterexample: after `schema running` the active ordinal is 6;
the claim predicts that a subsequent `ingest running` (ordinal 4) yields
`max 6 (min 4 MAX_STEP) = 6`, but the reducer sets the active ordinal to
4. -/
theorem c2_counterexample :
    ¬((handleEvent (handleEvent runStartState schemaRunningEv)
          ingestRunningEv).activeStep
        = max (handleEvent runStartState schemaRunningEv).activeStep
            (min 4 MAX_STEP)) := by
  decide

/-- C2, amended: for a mapped event with ordinal `n`, on status `running`
the reducer sets `activeStep` directly to `min n MAX_STEP` (no `max` with
the previous value); on status `done` it adds `n` to the completed set
and sets `activeStep` to `max activeStep (min (n+1) MAX_STEP)`, without
requiring an event of step `n+1` to have arrived. -/
theorem c2_amended (s : PipelineState) (e : PipelineEvent) (n : Int)
    (hm : STEP_INDEX_MAP e.step = some n) :
    (e.status = "running" → (handleEvent s e).activeStep = min n MAX_STEP) ∧
      (e.status = "done" →
        (handleEvent s e).completedSteps = insert n s.completedSteps ∧
          (handleEvent s e).activeStep
            = max s.activeStep (min (n + 1) MAX_STEP)) := by
  constructor
  · intro hr
    rw [handleEvent_running s e n hm hr]
  · intro hd
    rw [handleEvent_done s e n hm hd]
    exact ⟨rfl, rfl⟩

/-- C2 witness: the amended statement at the concrete `clone done`
event. -/
theorem c2_amended_witness :
    (handleEvent runStartState cloneDoneEv).completedSteps
        = insert 1 runStartState.completedSteps ∧
      (handleEvent runStartState cloneDoneEv).activeStep
        = max runStartState.activeStep (min (1 + 1) MAX_STEP) :=
  (c2_amended runStartState cloneDoneEv 1 (by decide)).2 rfl

/-- C3, counterexample: a `policy running` event stores `toolRows`; the
following `policy done` event, which omits `toolRows`, leaves Step
Data[7] with `toolRows = none` — the previously stored value is lost,
refuting that omitted optional fields are left untouched. -/
theorem c3_counterexample :
    ((handleEvent runStartState policyRunningEv).stepData 7).map
        StepData.toolRows = some (some [sampleToolRow]) ∧
      ((handleEvent (handleEvent runStartState policyRunningEv)
            policyDoneEv).stepData 7).map StepData.toolRows = some none := by
  constructor <;> decide

/-- C3, amended: a mapped event for ordinal `n` replaces Step Data[n]
wholesale with the record built from the incoming event (optional fields
omitted by the event are absent afterwards even if previously set) and
leaves every other ordinal's record untouched. -/
theorem c3_amended (s : PipelineState) (e : PipelineEvent) (n : Int)
    (hm : STEP_INDEX_MAP e.step = some n) :
    (handleEvent s e).stepData n = some (mkStepData e) ∧
      ∀ k, k ≠ n → (handleEvent s e).stepData k = s.stepData k := by
  by_cases hr : e.status = "running"
  · rw [handleEvent_running s e n hm hr]
    exact ⟨by simp, fun k hk => by simp [hk]⟩
  · by_cases hd : e.status = "done"
    · rw [handleEvent_done s e n hm hd]
      exact ⟨by simp, fun k hk => by simp [hk]⟩
    · rw [handleEvent_other s e n hm hr hd]
      exact ⟨by simp, fun k hk => by simp [hk]⟩

/-- C3 witness: the amended statement at the concrete `policy done`
event. -/
theorem c3_amended_witness :
    (handleEvent (handleEvent runStartState policyRunningEv)
        policyDoneEv).stepData 7 = some (mkStepData policyDoneEv) :=
  (c3_amended (handleEvent runStartState policyRunningEv) policyDoneEv 7
    (by decide)).1

/-- C4 (confirmed): a start request whose identifiers are all
blank/whitespace (in particular the empty list) is rejected by
`handleStart` before anything happens: `startPipeline` is never invoked,
so no network request is issued and no run state transition occurs. -/
theorem c4_blank_start_rejected (urls : List String)
    (h : ∀ u ∈ urls, u.data.all Char.isWhitespace = true) :
    handleStart urls = none := by
  unfold handleStart
  have hf : urls.filter (fun u => !u.data.all Char.isWhitespace) = [] := by
    rw [List.filter_eq_nil_iff]
    intro u hu
    simp [h u hu]
  rw [hf]
  rfl

/-- C4 witness: the empty identifier and a whitespace identifier are both
rejected. -/
theorem c4_blank_start_rejected_witness : handleStart ["", "   "] = none :=
  c4_blank_start_rejected ["", "   "] (by decide)

/-- C5 (confirmed): within one run, before any navigation every event
sequence keeps `viewedStep` equal to `activeStep` (and the navigation
flag unset); after any `navigate` call, no subsequent event sequence
changes `viewedStep`, and the flag stays set until the next run start. -/
theorem c5_view_tracking :
    (∀ es : List PipelineEvent,
        (es.foldl handleEvent runStartState).userNavigated = false ∧
          (es.foldl handleEvent runStartState).viewedStep
            = (es.foldl handleEvent runStartState).activeStep) ∧
      ∀ (s : PipelineState) (x : Int) (es : List PipelineEvent),
        (es.foldl handleEvent (navigateToStep s x)).userNavigated = true ∧
          (es.foldl handleEvent (navigateToStep s x)).viewedStep
            = (navigateToStep s x).viewedStep :=
  ⟨fun es => foldl_follow es runStartState rfl rfl,
   fun s x es => foldl_pinned es (navigateToStep s x) rfl⟩

/-- C6 (confirmed): a line that lacks the `"data: "` marker or whose
payload fails to parse changes no state, and decoding continues: the
lines after it are processed exactly as if the malformed line were
absent. -/
theorem c6_malformed_line (parse : List Char → Option PipelineEvent)
    (line : List Char)
    (h : stripMarker line = none ∨
      ∃ p, stripMarker line = some p ∧ parse p = none) :
    (∀ s, processLine parse s line = s) ∧
      ∀ (s : PipelineState) (pre post : List (List Char)),
        processLines parse s (pre ++ line :: post)
          = processLines parse (processLines parse s pre) post := by
  have hid : ∀ s, processLine parse s line = s := by
    intro s
    unfold processLine
    rcases h with h | ⟨p, h1, h2⟩
    · rw [h]
    · simp only [h1, h2]
  refine ⟨hid, fun s pre post => ?_⟩
  rw [processLines_append]
  show processLines parse (processLines parse s pre) (line :: post) = _
  unfold processLines
  rw [List.foldl_cons, hid]

/-- C6 witness: a line without the marker leaves the run-start state
unchanged. -/
theorem c6_malformed_line_witness :
    processLine (fun _ => none) runStartState ['x'] = runStartState :=
  (c6_malformed_line (fun _ => none) ['x'] (Or.inl rfl)).1 runStartState

/-- C7 (confirmed): a meta-event (`step = "pipeline"`) with status
`error` sets exactly the run-level error field to the items joined with
`"; "` (all other state components unchanged, as the record update
shows); a meta-event with any other status changes nothing at all. -/
theorem c7_meta_events (s : PipelineState) (e : PipelineEvent)
    (h : e.step = "pipeline") :
    (e.status = "error" →
        handleEvent s e
          = { s with error := some (String.intercalate "; " e.items) }) ∧
      (e.status ≠ "error" → handleEvent s e = s) :=
  ⟨fun hs => handleEvent_meta_error s e h hs,
   fun hs => handleEvent_meta_other s e h hs⟩

/-- C7 witness: the concrete meta error event sets the error field. -/
theorem c7_meta_events_witness :
    handleEvent runStartState metaErrorEv
      = { runStartState with
            error := some (String.intercalate "; " metaErrorEv.items) } :=
  (c7_meta_events runStartState metaErrorEv rfl).1 rfl

/-- C8 (confirmed): for every integer `x`, `navigateToStep` sets
`viewedStep` to the clamp of `x` into `[0, MAX_STEP]` and makes
`following` false (the navigation flag true), so `viewedStep` always
lies in `[0, MAX_STEP]` after a navigate call. -/
theorem c8_navigate_clamps (s : PipelineState) (x : Int) :
    (navigateToStep s x).viewedStep = min (max x 0) MAX_STEP ∧
      (navigateToStep s x).userNavigated = true ∧
      following (navigateToStep s x) = false ∧
      0 ≤ (navigateToStep s x).viewedStep ∧
      (navigateToStep s x).viewedStep ≤ MAX_STEP := by
  refine ⟨rfl, rfl, rfl, ?_, ?_⟩
  · exact le_min (le_max_right x 0) (by norm_num [MAX_STEP])
  · exact min_le_right _ _

/-- C9 (confirmed): every mapped step id resolves to an ordinal in
`[1, MAX_STEP]`; consequently, after any sequence of events and
navigations from run start, every completed ordinal lies in
`[0, MAX_STEP]`, every populated step-data key lies in `[1, MAX_STEP]`,
and the reducer never creates step data for ordinal 0. -/
theorem c9_ordinal_bounds :
    (∀ (id : String) (n : Int),
        STEP_INDEX_MAP id = some n → 1 ≤ n ∧ n ≤ MAX_STEP) ∧
      ∀ ops : List PipelineOp,
        (∀ k ∈ (ops.foldl applyOp runStartState).completedSteps,
            0 ≤ k ∧ k ≤ MAX_STEP) ∧
          (∀ k, (ops.foldl applyOp runStartState).stepData k ≠ none →
              1 ≤ k ∧ k ≤ MAX_STEP) ∧
          (ops.foldl applyOp runStartState).stepData 0 = none := by
  refine ⟨STEP_INDEX_MAP_range, fun ops => ?_⟩
  have h0c : ∀ k ∈ runStartState.completedSteps, 0 ≤ k ∧ k ≤ MAX_STEP := by
    intro k hk
    have hk0 : k = 0 := Finset.mem_singleton.mp hk
    subst hk0
    exact ⟨le_rfl, by norm_num [MAX_STEP]⟩
  have h0d : ∀ k, runStartState.stepData k ≠ none → 1 ≤ k ∧ k ≤ MAX_STEP := by
    intro k hk
    exact absurd rfl hk
  obtain ⟨hc, hd⟩ := foldl_ops_bound ops runStartState h0c h0d
  refine ⟨hc, hd, ?_⟩
  cases hz : (ops.foldl applyOp runStartState).stepData 0 with
  | none => rfl
  | some d =>
    have h1 := (hd 0 (by rw [hz]; exact fun hh => Option.noConfusion hh)).1
    exact absurd h1 (by norm_num)

/-- C9 witness: the range fact at the concrete id `"clone"`. -/
theorem c9_ordinal_bounds_witness : 1 ≤ (1 : Int) ∧ (1 : Int) ≤ MAX_STEP :=
  c9_ordinal_bounds.1 "clone" 1 (by decide)

/-- C10 (confirmed): decoding the chunked byte stream equals processing
exactly the newline-terminated lines of the concatenated stream — the
trailing bytes after the last newline are discarded unparsed when
end-of-data arrives — and the result is independent of how the bytes
were split into chunks. -/
theorem c10_stream_framing (parse : List Char → Option PipelineEvent)
    (s : PipelineState) (chunks : List (List Char)) :
    runStream parse s chunks
        = processLines parse s ((splitOnNl chunks.flatten).dropLast) ∧
      ∀ chunks' : List (List Char), chunks.flatten = chunks'.flatten →
        runStream parse s chunks = runStream parse s chunks' := by
  refine ⟨runStream_eq parse s chunks, fun chunks' hj => ?_⟩
  rw [runStream_eq parse s chunks, runStream_eq parse s chunks', hj]

/-- C10 witness: two different chunkings of the same bytes decode to the
same state. -/
theorem c10_stream_framing_witness :
    runStream (fun _ => none) runStartState [['a'], ['b', '\n', 'c']]
      = runStream (fun _ => none) runStartState [['a', 'b', '\n'], ['c']] :=
  (c10_stream_framing (fun _ => none) runStartState
    [['a'], ['b', '\n', 'c']]).2 [['a', 'b', '\n'], ['c']] rfl

end TestPilot
